import Mathlib

/-!
Verification of the bounded-concurrency promise queue (`src/index.ts`,
the later revision of the `Queue` class, which keeps rejected sequence
numbers in a separate `rejectObject`).

The TypeScript class is embedded as a pure state machine.  Every `async`
suspension point of the source (awaiting a task factory's settlement,
a retry backoff `sleep`, the pacing `sleep` inside `continue`) becomes an
explicit continuation (`Cont`); a run is driven by a list of external
actions (`Act`): the public method calls, and `fire`, which resumes one
pending continuation, supplying the task's outcome where one is awaited.
Task factories are represented by identifiers (`Nat`); the outcome of each
invocation is supplied by the driving action, so any settlement order and
any success/failure pattern can be expressed.  Values and errors are `Nat`.

The `resolve` event carries, besides the emitted value, the sequence
number whose record is being emitted (the value of `completed` at the
moment of emission in the order-guaranteed branch, the task's own index
otherwise); this ghost component only instruments the trace so that
ordering properties can be stated, it does not alter control flow.
-/

namespace PromiseQueue

/-- `OnRejection` enum of the source. -/
inductive OnRejection where
  | THROW
  | RETRY_THEN_THROW
  | IGNORE
  | RETRY_THEN_IGNORE
deriving DecidableEq, Repr

/-- Return type of the `retryCondition` callback: `{retry: boolean; interval?: number}`. -/
structure RetryDecision where
  retry : Bool
  interval : Option Nat
deriving DecidableEq, Repr

/-- `InputInfo<T>`: `{index, startTime, fn}`.  `fn` is a task identifier. -/
structure InputInfo where
  index : Nat
  startTime : Nat
  fn : Nat
deriving DecidableEq, Repr

/-- The observable notifications (`QueueEvents<T>`).  `resolve` additionally
records the sequence number being emitted (ghost instrumentation). -/
inductive Event where
  | resolve (idx : Nat) (v : Nat)
  | reject (e : Nat) (info : InputInfo)
  | fail (e : Nat)
  | start
  | stop
  | endEv
  | finish
  | prepareRetry (e : Nat) (retryIn : Option Nat) (info : InputInfo)
  | retry (info : InputInfo)
  | dequeue (info : InputInfo)
  | enqueue (idx : Nat) (fn : Nat)
deriving DecidableEq, Repr

/-- Settlement of one task-factory invocation. -/
inductive Outcome where
  | ok (v : Nat)
  | err (e : Nat)
deriving DecidableEq, Repr

/-- Suspended continuations, one per `await` in the source:
`taskSettle info failRC` awaits the factory's settlement (on failure the
source calls `handleRejection` with retry count `failRC`); `pacing` is the
`sleep` inside `continue`; `retrySleep` is the backoff `sleep` inside
`attemptRetry` (on wake it emits `retry` and re-invokes the factory). -/
inductive Cont where
  | taskSettle (info : InputInfo) (failRC : Nat)
  | pacing (info : InputInfo)
  | retrySleep (retryIn : Option Nat) (retryCount : Nat) (e : Nat) (info : InputInfo)
deriving DecidableEq, Repr

/-- `QueueOptions` of the source, every field optional. -/
structure QueueOptions where
  interval : Option Nat
  concurrent : Option Nat
  start : Option Bool
  guaranteeOrder : Option Bool
  onRejection : Option OnRejection
  retryIntervals : Option (List Nat)
  alwaysRetry : Option Bool
  retryCondition : Option (Nat → RetryDecision)

/-- The private fields of `Queue<T>`.  `runningCount` is an `Int` because the
source decrements a plain number that nothing clamps at zero.  The two
buffers are association lists keyed by sequence number (the source uses
plain objects); `resolveObject` stores `{res, inputInfo}` as in the source. -/
structure QueueState where
  interval : Nat
  concurrent : Nat
  startOnAdd : Bool
  guaranteeOrder : Bool
  onRejection : OnRejection
  retryIntervals : List Nat
  alwaysRetry : Bool
  retryCondition : Option (Nat → RetryDecision)
  runningCount : Int
  queue : List Nat
  resolveObject : List (Nat × (Nat × InputInfo))
  rejectObject : List (Nat × Nat)
  index : Nat
  completed : Nat
  isRunning : Bool

/-- The constructor: each option defaulted as in the source. -/
def mkQueue (o : QueueOptions) : QueueState where
  interval := o.interval.getD 500
  concurrent := o.concurrent.getD 5
  startOnAdd := o.start.getD true
  guaranteeOrder := o.guaranteeOrder.getD true
  onRejection := o.onRejection.getD OnRejection.RETRY_THEN_THROW
  retryIntervals := o.retryIntervals.getD [1000, 2000, 5000, 10000, 20000, 60000]
  alwaysRetry := o.alwaysRetry.getD false
  retryCondition := o.retryCondition
  runningCount := 0
  queue := []
  resolveObject := []
  rejectObject := []
  index := 0
  completed := 0
  isRunning := false

/-- JavaScript-object lookup on an association list. -/
def lookupA {α : Type} (m : List (Nat × α)) (k : Nat) : Option α :=
  (m.find? fun p => p.1 == k).map fun p => p.2

/-- `hasOwnProperty`. -/
def hasKey {α : Type} (m : List (Nat × α)) (k : Nat) : Bool :=
  (m.find? fun p => p.1 == k).isSome

/-- JavaScript-object key assignment (overwrites an existing key). -/
def insertA {α : Type} (m : List (Nat × α)) (k : Nat) (v : α) : List (Nat × α) :=
  (k, v) :: m.filter fun p => ¬ p.1 = k

/-- `delete obj[k]`. -/
def eraseA {α : Type} (m : List (Nat × α)) (k : Nat) : List (Nat × α) :=
  m.filter fun p => ¬ p.1 = k

/-- JavaScript array indexing, which yields `undefined` for a negative index. -/
def jsIdx (l : List Nat) (i : Int) : Option Nat :=
  if i < 0 then none else l.get? i.toNat

/-- Getter `size`. -/
def sizeQ (s : QueueState) : Nat := s.queue.length

/-- Getter `isEmpty`. -/
def isEmptyQ (s : QueueState) : Bool := sizeQ s == 0

/-- Getter `shouldRun`: `runningCount < concurrent && !isEmpty`. -/
def shouldRunQ (s : QueueState) : Bool :=
  decide (s.runningCount < (s.concurrent : Int)) && !(isEmptyQ s)

/-- Getter `stopped`: `!startOnAdd && !started`. -/
def stoppedQ (s : QueueState) : Bool := !s.startOnAdd && !s.isRunning

/-- `end()`: if `started`, clear `isRunning` and emit `end`. -/
def endStep (s : QueueState) : QueueState × List Event :=
  if s.isRunning then ({ s with isRunning := false }, [Event.endEv]) else (s, [])

/-- `fail(err)`: if `started`, emit `fail` and call `end()`; otherwise nothing. -/
def failStep (s : QueueState) (e : Nat) : QueueState × List Event :=
  if s.isRunning then
    let r := endStep s
    (r.1, Event.fail e :: r.2)
  else (s, [])

/-- The synchronous prefix of `continue(inputInfo)`: decrement `runningCount`,
then suspend into the pacing sleep (the `dequeue` after the sleep happens when
the `pacing` continuation fires). -/
def continueStep (s : QueueState) (info : InputInfo) :
    QueueState × List Event × List Cont :=
  ({ s with runningCount := s.runningCount - 1 }, [], [Cont.pacing info])

/-- The `while` loop of `attemptEmit`, draining the contiguous finalized
prefix at `completed`.  Fuel bounds the iteration count; each iteration
deletes the key `completed` from one of the two buffers, so fuel equal to
the total number of buffered entries is enough. -/
def drainFuel : Nat → QueueState → QueueState × List Event
  | 0, s => (s, [])
  | f + 1, s =>
    match lookupA s.resolveObject s.completed, hasKey s.rejectObject s.completed with
    | some rv, _ =>
      let s1 : QueueState :=
        { s with resolveObject := eraseA s.resolveObject s.completed,
                 completed := s.completed + 1 }
      let r := drainFuel f s1
      (r.1, Event.resolve s.completed rv.1 :: r.2)
    | none, true =>
      let s1 : QueueState :=
        { s with rejectObject := eraseA s.rejectObject s.completed,
                 completed := s.completed + 1 }
      drainFuel f s1
    | none, false => (s, [])

/-- `attemptEmit(res, inputInfo)`: with the order guarantee, store the result
keyed by its sequence number and drain; otherwise emit immediately.  Either
way fall through to `continue`. -/
def attemptEmit (s : QueueState) (res : Nat) (info : InputInfo) :
    QueueState × List Event × List Cont :=
  if s.guaranteeOrder then
    let s0 : QueueState :=
      { s with resolveObject := insertA s.resolveObject info.index (res, info) }
    let r := drainFuel (s0.resolveObject.length + s0.rejectObject.length) s0
    let r2 := continueStep r.1 info
    (r2.1, r.2 ++ r2.2.1, r2.2.2)
  else
    let r2 := continueStep s info
    (r2.1, Event.resolve info.index res :: r2.2.1, r2.2.2)

/-- `dequeue()`: shift the head; if present, assign the next sequence number,
increment `runningCount`, emit `dequeue`, and suspend awaiting the factory's
settlement; if the queue is empty, call `end()` and emit `finish`. -/
def dequeueStep (s : QueueState) (now : Nat) :
    QueueState × List Event × List Cont :=
  match s.queue with
  | [] =>
    let r := endStep s
    (r.1, r.2 ++ [Event.finish], [])
  | fn :: rest =>
    let info : InputInfo := { index := s.index, startTime := now, fn := fn }
    ({ s with queue := rest, runningCount := s.runningCount + 1, index := s.index + 1 },
     [Event.dequeue info], [Cont.taskSettle info 0])

/-- `rejectAndContinue(err, inputInfo)`: emit `reject`, record the error in
`rejectObject`, free the slot, and call `dequeue()` immediately. -/
def rejectAndContinue (s : QueueState) (e : Nat) (info : InputInfo) (now : Nat) :
    QueueState × List Event × List Cont :=
  let s1 : QueueState :=
    { s with rejectObject := insertA s.rejectObject info.index e,
             runningCount := s.runningCount - 1 }
  let r := dequeueStep s1 now
  (r.1, Event.reject e info :: r.2.1, r.2.2)

/-- `attemptRetry(interval, retryCount, err, inputInfo)`.  The retry branch
computes `interval ?? retryIntervals[retryCount] ?? retryIntervals[length-1]`,
emits `prepareRetry` and suspends into the backoff sleep; the exhausted
branch applies the policy's terminal outcome. -/
def attemptRetry (s : QueueState) (interval : Option Nat) (retryCount : Nat)
    (e : Nat) (info : InputInfo) (now : Nat) :
    QueueState × List Event × List Cont :=
  if s.alwaysRetry = true ∨ retryCount < s.retryIntervals.length then
    let retryIn :=
      interval <|> s.retryIntervals.get? retryCount <|>
        jsIdx s.retryIntervals ((s.retryIntervals.length : Int) - 1)
    (s, [Event.prepareRetry e retryIn info], [Cont.retrySleep retryIn retryCount e info])
  else
    if s.onRejection = OnRejection.RETRY_THEN_THROW then
      let r := failStep s e
      (r.1, r.2, [])
    else
      rejectAndContinue s e info now

/-- `this.retryCondition?.(err)`. -/
def condEval (s : QueueState) (e : Nat) : Option RetryDecision :=
  s.retryCondition.map fun f => f e

/-- `handleRejection(err, inputInfo, retryCount)`. -/
def handleRejection (s : QueueState) (e : Nat) (info : InputInfo)
    (retryCount : Nat) (now : Nat) : QueueState × List Event × List Cont :=
  match s.onRejection with
  | OnRejection.THROW =>
    let r := failStep s e
    (r.1, r.2, [])
  | OnRejection.RETRY_THEN_THROW =>
    let sr := condEval s e
    if (sr.map RetryDecision.retry).getD true = true then
      attemptRetry s (sr.bind RetryDecision.interval) retryCount e info now
    else
      let r := failStep s e
      (r.1, r.2, [])
  | OnRejection.IGNORE => rejectAndContinue s e info now
  | OnRejection.RETRY_THEN_IGNORE =>
    let sr := condEval s e
    if (sr.map RetryDecision.retry).getD true = true then
      attemptRetry s (sr.bind RetryDecision.interval) retryCount e info now
    else
      rejectAndContinue s e info now

/-- The `while (this.shouldRun) this.dequeue()` loop of `start()`.  Each
iteration removes one queue element, so fuel equal to the queue length at
entry makes the fueled loop coincide with the source's loop. -/
def startLoopAux : Nat → QueueState → Nat → QueueState × List Event × List Cont
  | 0, s, _ => (s, [], [])
  | f + 1, s, now =>
    if shouldRunQ s then
      let r := dequeueStep s now
      let r2 := startLoopAux f r.1 now
      (r2.1, r.2.1 ++ r2.2.1, r.2.2 ++ r2.2.2)
    else (s, [], [])

/-- `start()`. -/
def startPub (s : QueueState) (now : Nat) : QueueState × List Event × List Cont :=
  let s0 : QueueState := { s with isRunning := true, startOnAdd := true }
  let r := startLoopAux s0.queue.length s0 now
  (r.1, Event.start :: r.2.1, r.2.2)

/-- `stop()`. -/
def stopPub (s : QueueState) : QueueState × List Event × List Cont :=
  let s0 : QueueState := { s with startOnAdd := false }
  let r := endStep s0
  (r.1, Event.stop :: r.2, [])

/-- `enqueue(promise)`: push, emit `enqueue` with the position in the pending
queue, and auto-start when admitted. -/
def enqueuePub (s : QueueState) (fn : Nat) (now : Nat) :
    QueueState × List Event × List Cont :=
  let s0 : QueueState := { s with queue := s.queue ++ [fn] }
  let ev0 := Event.enqueue (s0.queue.length - 1) fn
  if shouldRunQ s0 && s0.startOnAdd then
    let r := startPub s0 now
    (r.1, ev0 :: r.2.1, r.2.2)
  else (s0, [ev0], [])

/-- `clear()` of the canonical revision: resets every mutable field except
`startOnAdd`. -/
def clearPub (s : QueueState) : QueueState :=
  { s with queue := [], resolveObject := [], rejectObject := [],
           index := 0, completed := 0, isRunning := false, runningCount := 0 }

/-- Resuming one suspended continuation.  A settlement continuation consumes
the supplied outcome; the sleeps ignore it. -/
def fireCont (s : QueueState) (c : Cont) (o : Outcome) (now : Nat) :
    QueueState × List Event × List Cont :=
  match c with
  | Cont.taskSettle info failRC =>
    match o with
    | Outcome.ok v => attemptEmit s v info
    | Outcome.err e => handleRejection s e info failRC now
  | Cont.pacing _ =>
    if s.isRunning then dequeueStep s now else (s, [], [])
  | Cont.retrySleep _ retryCount _ info =>
    (s, [Event.retry info], [Cont.taskSettle info (retryCount + 1)])

/-- A system configuration: the queue state, the pending continuations, and a
logical clock supplying `Date.now()` timestamps. -/
structure Sys where
  st : QueueState
  conts : List Cont
  now : Nat

/-- External actions driving a run: the public methods, and `fire k o`, which
resumes pending continuation number `k` (supplying outcome `o` where the
continuation awaits a settlement). -/
inductive Act where
  | enqueue (fn : Nat)
  | start
  | stop
  | clear
  | dequeue
  | fire (k : Nat) (o : Outcome)
deriving DecidableEq, Repr

/-- One step of the system. -/
def stepSys (σ : Sys) (a : Act) : Sys × List Event :=
  match a with
  | Act.enqueue fn =>
    let r := enqueuePub σ.st fn σ.now
    ({ st := r.1, conts := σ.conts ++ r.2.2, now := σ.now + 1 }, r.2.1)
  | Act.start =>
    let r := startPub σ.st σ.now
    ({ st := r.1, conts := σ.conts ++ r.2.2, now := σ.now + 1 }, r.2.1)
  | Act.stop =>
    let r := stopPub σ.st
    ({ st := r.1, conts := σ.conts ++ r.2.2, now := σ.now + 1 }, r.2.1)
  | Act.clear =>
    ({ st := clearPub σ.st, conts := σ.conts, now := σ.now + 1 }, [])
  | Act.dequeue =>
    let r := dequeueStep σ.st σ.now
    ({ st := r.1, conts := σ.conts ++ r.2.2, now := σ.now + 1 }, r.2.1)
  | Act.fire k o =>
    match σ.conts.get? k with
    | none => ({ st := σ.st, conts := σ.conts, now := σ.now + 1 }, [])
    | some c =>
      let r := fireCont σ.st c o σ.now
      ({ st := r.1, conts := σ.conts.eraseIdx k ++ r.2.2, now := σ.now + 1 }, r.2.1)

/-- Run a list of actions, collecting the event trace. -/
def runSys (σ : Sys) : List Act → Sys × List Event
  | [] => (σ, [])
  | a :: as =>
    let r := stepSys σ a
    let r2 := runSys r.1 as
    (r2.1, r.2 ++ r2.2)

/-- A freshly constructed system. -/
def initSys (o : QueueOptions) : Sys :=
  { st := mkQueue o, conts := [], now := 0 }

/-- The sequence numbers of the `resolve` events of a trace. -/
def resolveIdxs (l : List Event) : List Nat :=
  l.filterMap fun e =>
    match e with
    | Event.resolve i _ => some i
    | _ => none

/-- Retry-related notifications (`prepareRetry`, `retry`). -/
def isRetryEvent : Event → Bool
  | Event.prepareRetry _ _ _ => true
  | Event.retry _ => true
  | _ => false

/-- Is this action a continuation resumption (as opposed to a public call)? -/
def isFireAct : Act → Bool
  | Act.fire _ _ => true
  | _ => false

/-- Number of `reject` notifications in a trace. -/
def countRejectEv (l : List Event) : Nat :=
  l.countP fun ev =>
    match ev with
    | Event.reject _ _ => true
    | _ => false

/-- Number of `fail` notifications in a trace. -/
def countFailEv (l : List Event) : Nat :=
  l.countP fun ev =>
    match ev with
    | Event.fail _ => true
    | _ => false

/-- `new Queue()` with no options. -/
def noOpts : QueueOptions :=
  { interval := none, concurrent := none, start := none, guaranteeOrder := none,
    onRejection := none, retryIntervals := none, alwaysRetry := none,
    retryCondition := none }

/-- A concrete state used to instantiate theorems about single operations. -/
def baseState : QueueState := mkQueue noOpts

/-- Options for the ordering scenario: two concurrent slots. -/
def c1opts : QueueOptions := { noOpts with concurrent := some 2 }

/-- Two tasks are enqueued (auto-starting both); the second settles first,
then the first: the drain must still emit the resolves in sequence order. -/
def c1acts : List Act :=
  [Act.enqueue 20, Act.enqueue 21, Act.fire 1 (Outcome.ok 91),
   Act.fire 0 (Outcome.ok 90)]

/-- Options for the concurrency-bound scenario: limit 1. -/
def c2opts : QueueOptions := { noOpts with concurrent := some 1 }

/-- Limit 1: enqueue a task, let it resolve (its pacing sleep stays pending),
enqueue two more (auto-start dequeues one, filling the single slot), then let
the pacing sleep fire: `continue` checks only `started`, so it dequeues a
third task while the slot is full. -/
def c2acts : List Act :=
  [Act.enqueue 10, Act.fire 0 (Outcome.ok 42), Act.enqueue 11, Act.enqueue 12,
   Act.fire 0 (Outcome.ok 0)]

/-- Fail-fast options. -/
def c8opts : QueueOptions := { noOpts with onRejection := some OnRejection.THROW }

/-- Enqueue a task (auto-started), stop the scheduler, then let the in-flight
task fail: `fail()` is guarded by `started`, so the failure is dropped. -/
def c8acts : List Act := [Act.enqueue 7, Act.stop, Act.fire 0 (Outcome.err 5)]

/-- The system state after `stop(); clear()` on a default queue. -/
def c5afterClear : Sys :=
  (runSys (initSys noOpts) [Act.stop, Act.clear]).1

/-- In-flight count already at the limit, one task pending. -/
def c9state : QueueState := { baseState with queue := [3], runningCount := 5 }

/-- A concrete `InputInfo` for instantiating per-task theorems. -/
def infoW : InputInfo := { index := 0, startTime := 0, fn := 9 }

/-- Empty backoff ladder with the always-retry flag set. -/
def c10state : QueueState :=
  { baseState with retryIntervals := [], alwaysRetry := true }

/-- A running retry-then-ignore queue whose two-step ladder is exhausted. -/
def c3state : QueueState :=
  { baseState with retryIntervals := [1, 2], isRunning := true,
                   onRejection := OnRejection.RETRY_THEN_IGNORE, queue := [4] }

/-- A running fail-fast queue. -/
def c7state : QueueState :=
  { baseState with onRejection := OnRejection.THROW, isRunning := true }

/-- A mid-run state (tasks pending, buffers non-empty, counters advanced)
whose configuration matches the default options. -/
def c5state : QueueState :=
  { baseState with queue := [1, 2], runningCount := 3, index := 7,
                   completed := 4, isRunning := true,
                   resolveObject := [(5, (9, infoW))],
                   rejectObject := [(6, 2)] }

/-- The resolve-index list `l` of an event batch is strictly increasing and
confined to the cursor interval `[c, c')`. -/
def drainBound (c c' : Nat) (l : List Nat) : Prop :=
  c ≤ c' ∧ List.Pairwise (· < ·) l ∧ ∀ x ∈ l, c ≤ x ∧ x < c'

/-! ### Lemmas about the association-list primitives -/

theorem hasKey_iff {α : Type} (m : List (Nat × α)) (k : Nat) :
    hasKey m k = true ↔ ∃ p ∈ m, p.1 = k := by
  simp [hasKey, List.find?_isSome]

theorem lookupA_none_of_not_hasKey {α : Type} (m : List (Nat × α)) (k : Nat)
    (h : hasKey m k = false) : lookupA m k = none := by
  unfold hasKey at h
  unfold lookupA
  cases hf : m.find? fun p => p.1 == k with
  | none => simp
  | some p => rw [hf] at h; simp at h

theorem hasKey_eraseA {α : Type} (m : List (Nat × α)) (k x : Nat)
    (h : hasKey (eraseA m k) x = true) : hasKey m x = true := by
  rw [hasKey_iff] at h ⊢
  obtain ⟨p, hp, he⟩ := h
  exact ⟨p, List.mem_of_mem_filter hp, he⟩

/-! ### C9: the public dequeue ignores the admission predicate -/

/-- C9: the public `dequeue()` never consults the admission predicate: on a
non-empty pending queue it removes the head, assigns the next sequence
number, and increments the in-flight count unconditionally, so when the
in-flight count already meets the limit it is driven strictly above it. -/
theorem c9_dequeue_bypasses_admission (s : QueueState) (fn : Nat)
    (rest : List Nat) (now : Nat) (hq : s.queue = fn :: rest) :
    (dequeueStep s now).1.queue = rest
    ∧ (dequeueStep s now).1.index = s.index + 1
    ∧ (dequeueStep s now).1.runningCount = s.runningCount + 1
    ∧ (dequeueStep s now).2.1 =
        [Event.dequeue { index := s.index, startTime := now, fn := fn }]
    ∧ (dequeueStep s now).2.2 =
        [Cont.taskSettle { index := s.index, startTime := now, fn := fn } 0]
    ∧ (s.runningCount ≥ (s.concurrent : Int) →
        (dequeueStep s now).1.runningCount > (s.concurrent : Int)) := by
  simp [dequeueStep, hq]
  omega

theorem c9_witness :
    c9state.queue = [3]
    ∧ (dequeueStep c9state 0).1.runningCount > (c9state.concurrent : Int) :=
  ⟨by decide,
   (c9_dequeue_bypasses_admission c9state 3 [] 0 (by decide)).2.2.2.2.2 (by decide)⟩

/-! ### C10: empty ladder with always-retry yields an absent wait duration -/

/-- C10: with an empty backoff ladder and the always-retry flag set, a failure
under a retry-capable policy with no override interval computes no wait
duration (`retryIntervals[retryCount]` and `retryIntervals[length-1]` are both
out of bounds), and `prepareRetry` is emitted carrying that absent duration. -/
theorem c10_empty_ladder (s : QueueState) (rc : Nat) (e : Nat)
    (info : InputInfo) (now : Nat)
    (h1 : s.retryIntervals = []) (h2 : s.alwaysRetry = true) :
    (attemptRetry s none rc e info now).2.1 = [Event.prepareRetry e none info]
    ∧ (attemptRetry s none rc e info now).2.2 = [Cont.retrySleep none rc e info]
    ∧ (attemptRetry s none rc e info now).1 = s := by
  rw [attemptRetry, if_pos (Or.inl h2)]
  simp [h1, jsIdx]

theorem c10_witness :
    c10state.retryIntervals = [] ∧ c10state.alwaysRetry = true
    ∧ ((attemptRetry c10state none 0 5 infoW 0).2.1
        = [Event.prepareRetry 5 none infoW]
       ∧ (attemptRetry c10state none 0 5 infoW 0).2.2
        = [Cont.retrySleep none 0 5 infoW]
       ∧ (attemptRetry c10state none 0 5 infoW 0).1 = c10state) :=
  ⟨by decide, by decide, c10_empty_ladder c10state 0 5 infoW 0 (by decide) (by decide)⟩

/-! ### C6: the computed retry wait duration -/

/-- C6: when a retry is performed, the wait duration is the predicate's
override interval if provided, else the ladder entry at the current attempt
count, else (attempt count at or beyond the ladder length, reachable only via
the always-retry disjunct of the guard) the ladder's last entry; the guard's
`alwaysRetry` disjunct admits every attempt count, so with always-retry set
retries go on at the ladder's last interval. -/
theorem c6_retry_wait_duration (s : QueueState) (iv : Option Nat) (rc : Nat)
    (e : Nat) (info : InputInfo) (now : Nat)
    (hne : s.retryIntervals ≠ [])
    (hgo : s.alwaysRetry = true ∨ rc < s.retryIntervals.length) :
    ∃ riv : Nat,
      (attemptRetry s iv rc e info now).2.1 = [Event.prepareRetry e (some riv) info]
      ∧ (attemptRetry s iv rc e info now).2.2 = [Cont.retrySleep (some riv) rc e info]
      ∧ riv = iv.getD ((s.retryIntervals.get? rc).getD
          (s.retryIntervals.getLast hne)) := by
  rw [attemptRetry, if_pos hgo]
  cases iv with
  | some i => exact ⟨i, by simp, by simp, by simp⟩
  | none =>
    cases hrc : s.retryIntervals.get? rc with
    | some d => exact ⟨d, by simp [hrc], by simp [hrc], by simp [hrc]⟩
    | none =>
      have hlen : 0 < s.retryIntervals.length := List.length_pos.mpr hne
      have hlast : jsIdx s.retryIntervals ((s.retryIntervals.length : Int) - 1)
          = some (s.retryIntervals.getLast hne) := by
        unfold jsIdx
        rw [if_neg (by omega)]
        have ht : ((s.retryIntervals.length : Int) - 1).toNat
            = s.retryIntervals.length - 1 := by omega
        rw [ht, List.get?_eq_getElem?, ← List.getLast?_eq_getElem?,
          List.getLast?_eq_getLast _ hne]
      refine ⟨s.retryIntervals.getLast hne, ?_, ?_, ?_⟩ <;> simp [hrc, hlast]

theorem c6_witness :
    baseState.retryIntervals ≠ []
    ∧ (baseState.alwaysRetry = true ∨ 0 < baseState.retryIntervals.length)
    ∧ ∃ riv, (attemptRetry baseState none 0 5 infoW 0).2.1
        = [Event.prepareRetry 5 (some riv) infoW]
      ∧ (attemptRetry baseState none 0 5 infoW 0).2.2
        = [Cont.retrySleep (some riv) 0 5 infoW] := by
  refine ⟨by decide, by decide, ?_⟩
  obtain ⟨riv, h1, h2, _⟩ :=
    c6_retry_wait_duration baseState none 0 5 infoW 0 (by decide) (by decide)
  exact ⟨riv, h1, h2⟩

/-! ### C4: absent retry predicate defaults to "retry" -/

/-- C4: under a retry-capable policy with no retry predicate configured, the
decision defaults to "retry, no override interval": `handleRejection` behaves
exactly as `attemptRetry` with no override, and within ladder or always-retry
limits a retry is prepared rather than the terminal outcome taken. -/
theorem c4_default_retry_decision (s : QueueState) (e : Nat) (info : InputInfo)
    (rc : Nat) (now : Nat) (hc : s.retryCondition = none)
    (hp : s.onRejection = OnRejection.RETRY_THEN_THROW
          ∨ s.onRejection = OnRejection.RETRY_THEN_IGNORE) :
    handleRejection s e info rc now = attemptRetry s none rc e info now
    ∧ ((s.alwaysRetry = true ∨ rc < s.retryIntervals.length) →
        ∃ riv, (handleRejection s e info rc now).2.1
          = [Event.prepareRetry e riv info]) := by
  have hcond : condEval s e = none := by simp [condEval, hc]
  have hmain : handleRejection s e info rc now = attemptRetry s none rc e info now := by
    rcases hp with hp | hp <;> simp [handleRejection, hp, hcond]
  refine ⟨hmain, fun hgo => ?_⟩
  rw [hmain, attemptRetry, if_pos hgo]
  exact ⟨_, rfl⟩

theorem c4_witness :
    baseState.retryCondition = none
    ∧ (baseState.onRejection = OnRejection.RETRY_THEN_THROW
       ∨ baseState.onRejection = OnRejection.RETRY_THEN_IGNORE)
    ∧ handleRejection baseState 5 infoW 0 0 = attemptRetry baseState none 0 5 infoW 0
    ∧ ∃ riv, (handleRejection baseState 5 infoW 0 0).2.1
        = [Event.prepareRetry 5 riv infoW] := by
  have h := c4_default_retry_decision baseState 5 infoW 0 0 rfl (Or.inl rfl)
  exact ⟨rfl, Or.inl rfl, h.1, h.2 (by decide)⟩

/-! ### C3: ladder exhaustion takes the policy's terminal outcome -/

/-- C3: with the attempt count at or past the ladder length and always-retry
unset, no retry notification is produced; under retry-then-fail the scheduler
halts with a `fail` notification followed by `end`; under retry-then-ignore a
`reject` notification is emitted, the in-flight slot freed, and the next
dequeue attempted (a `dequeue` notification when the pending queue is
non-empty, the empty-queue finish path otherwise). -/
theorem c3_exhaustion (s : QueueState) (iv : Option Nat) (rc e : Nat)
    (info : InputInfo) (now : Nat)
    (hx : s.retryIntervals.length ≤ rc) (ha : s.alwaysRetry = false)
    (hr : s.isRunning = true) :
    ((attemptRetry s iv rc e info now).2.1.any isRetryEvent) = false
    ∧ (s.onRejection = OnRejection.RETRY_THEN_THROW →
        (attemptRetry s iv rc e info now).2.1 = [Event.fail e, Event.endEv]
        ∧ (attemptRetry s iv rc e info now).1.isRunning = false)
    ∧ (s.onRejection = OnRejection.RETRY_THEN_IGNORE →
        (∃ tail, (attemptRetry s iv rc e info now).2.1 = Event.reject e info :: tail)
        ∧ (attemptRetry s iv rc e info now).1.runningCount
            = s.runningCount - 1 + (if s.queue.isEmpty then 0 else 1)
        ∧ (s.queue = [] → Event.finish ∈ (attemptRetry s iv rc e info now).2.1)
        ∧ (∀ f rest, s.queue = f :: rest →
            Event.dequeue { index := s.index, startTime := now, fn := f }
              ∈ (attemptRetry s iv rc e info now).2.1)) := by
  have hguard : ¬ (s.alwaysRetry = true ∨ rc < s.retryIntervals.length) := by
    rw [ha]
    rintro (h | h)
    · exact Bool.noConfusion h
    · omega
  rw [attemptRetry, if_neg hguard]
  by_cases hp : s.onRejection = OnRejection.RETRY_THEN_THROW
  · rw [if_pos hp]
    simp [failStep, endStep, hr, hp, isRetryEvent]
  · rw [if_neg hp]
    unfold rejectAndContinue
    cases hq : s.queue with
    | nil =>
      simp [dequeueStep, endStep, hq, hr, isRetryEvent, hp]
    | cons f rest =>
      simp [dequeueStep, endStep, hq, hr, isRetryEvent, hp]

theorem c3_witness :
    c3state.retryIntervals.length ≤ 2 ∧ c3state.alwaysRetry = false
    ∧ c3state.isRunning = true
    ∧ ((attemptRetry c3state none 2 5 infoW 0).2.1.any isRetryEvent) = false
    ∧ (∃ tail, (attemptRetry c3state none 2 5 infoW 0).2.1
        = Event.reject 5 infoW :: tail)
    ∧ (∀ f rest, c3state.queue = f :: rest →
        Event.dequeue { index := c3state.index, startTime := 0, fn := f }
          ∈ (attemptRetry c3state none 2 5 infoW 0).2.1) := by
  have h := c3_exhaustion c3state none 2 5 infoW 0 (by decide) (by decide) (by decide)
  have h2 := h.2.2 (by decide)
  exact ⟨by decide, by decide, by decide, h.1, h2.1, h2.2.2.2⟩


/-! ### C8 -/

theorem dequeueStep_counts (s : QueueState) (now : Nat) :
    countRejectEv (dequeueStep s now).2.1 = 0
    ∧ countFailEv (dequeueStep s now).2.1 = 0 := by
  by_cases hi : s.isRunning <;>
    cases hq : s.queue <;>
      simp [dequeueStep, endStep, hq, hi, countRejectEv, countFailEv]

theorem rejectAndContinue_counts (s : QueueState) (e : Nat) (info : InputInfo)
    (now : Nat) :
    countRejectEv (rejectAndContinue s e info now).2.1 = 1
    ∧ countFailEv (rejectAndContinue s e info now).2.1 = 0 := by
  have h := dequeueStep_counts
    { s with rejectObject := insertA s.rejectObject info.index e,
             runningCount := s.runningCount - 1 } now
  simp only [countRejectEv, countFailEv] at h
  simp [rejectAndContinue, countRejectEv, countFailEv, List.countP_cons, h.1, h.2]

theorem failStep_counts (s : QueueState) (e : Nat) :
    (s.isRunning = true ∧ countFailEv (failStep s e).2 = 1
      ∧ countRejectEv (failStep s e).2 = 0)
    ∨ (s.isRunning = false ∧ (failStep s e).2 = []) := by
  by_cases hi : s.isRunning
  · exact Or.inl ⟨hi, by simp [failStep, endStep, hi, countFailEv, countRejectEv]⟩
  · exact Or.inr ⟨by simpa using hi, by simp [failStep, hi]⟩

theorem attemptRetry_surfacing (s : QueueState) (iv : Option Nat) (rc e : Nat)
    (info : InputInfo) (now : Nat) :
    (∃ riv, (attemptRetry s iv rc e info now).2.1 = [Event.prepareRetry e riv info])
    ∨ (countRejectEv (attemptRetry s iv rc e info now).2.1 = 1
       ∧ countFailEv (attemptRetry s iv rc e info now).2.1 = 0)
    ∨ (s.isRunning = true ∧ countFailEv (attemptRetry s iv rc e info now).2.1 = 1
       ∧ countRejectEv (attemptRetry s iv rc e info now).2.1 = 0)
    ∨ (s.isRunning = false ∧ (attemptRetry s iv rc e info now).2.1 = []) := by
  by_cases hg : s.alwaysRetry = true ∨ rc < s.retryIntervals.length
  · rw [attemptRetry, if_pos hg]
    exact Or.inl ⟨_, rfl⟩
  · rw [attemptRetry, if_neg hg]
    by_cases hp : s.onRejection = OnRejection.RETRY_THEN_THROW
    · rw [if_pos hp]
      rcases failStep_counts s e with h | h
      · exact Or.inr (Or.inr (Or.inl ⟨h.1, h.2.1, h.2.2⟩))
      · exact Or.inr (Or.inr (Or.inr ⟨h.1, h.2⟩))
    · rw [if_neg hp]
      exact Or.inr (Or.inl (rejectAndContinue_counts s e info now))

/-- C8 (amended): every raw factory failure entering `handleRejection` either
schedules a retry (emitting `prepareRetry`), or is surfaced through exactly
one `reject` notification and no `fail`, or — with the scheduler running —
through exactly one `fail` notification and no `reject`; the only way a
failure produces no notification is the fatal path with the scheduler already
halted (`fail()` is guarded by `started`), where it is dropped silently. -/
theorem c8_failure_surfacing (s : QueueState) (e : Nat) (info : InputInfo)
    (rc : Nat) (now : Nat) :
    (∃ riv, (handleRejection s e info rc now).2.1 = [Event.prepareRetry e riv info])
    ∨ (countRejectEv (handleRejection s e info rc now).2.1 = 1
       ∧ countFailEv (handleRejection s e info rc now).2.1 = 0)
    ∨ (s.isRunning = true ∧ countFailEv (handleRejection s e info rc now).2.1 = 1
       ∧ countRejectEv (handleRejection s e info rc now).2.1 = 0)
    ∨ (s.isRunning = false ∧ (handleRejection s e info rc now).2.1 = []) := by
  cases hp : s.onRejection with
  | THROW =>
    have hfs := failStep_counts s e
    simp only [handleRejection, hp]
    rcases hfs with h | h
    · exact Or.inr (Or.inr (Or.inl ⟨h.1, h.2.1, h.2.2⟩))
    · exact Or.inr (Or.inr (Or.inr ⟨h.1, h.2⟩))
  | RETRY_THEN_THROW =>
    simp only [handleRejection, hp]
    by_cases hcnd : ((condEval s e).map RetryDecision.retry).getD true = true
    · rw [if_pos hcnd]
      exact attemptRetry_surfacing s _ rc e info now
    · rw [if_neg hcnd]
      rcases failStep_counts s e with h | h
      · exact Or.inr (Or.inr (Or.inl ⟨h.1, h.2.1, h.2.2⟩))
      · exact Or.inr (Or.inr (Or.inr ⟨h.1, h.2⟩))
  | IGNORE =>
    simp only [handleRejection, hp]
    exact Or.inr (Or.inl (rejectAndContinue_counts s e info now))
  | RETRY_THEN_IGNORE =>
    simp only [handleRejection, hp]
    by_cases hcnd : ((condEval s e).map RetryDecision.retry).getD true = true
    · rw [if_pos hcnd]
      exact attemptRetry_surfacing s _ rc e info now
    · rw [if_neg hcnd]
      exact Or.inr (Or.inl (rejectAndContinue_counts s e info now))

/-- C8 counterexample: under fail-fast, a task is dequeued, the scheduler is
stopped, and then the in-flight task's failure is delivered: the pending
settlement is consumed (no continuation remains) yet the full trace contains
neither a `reject` nor a `fail` notification — the failure is dropped. -/
theorem c8_cex :
    countRejectEv (runSys (initSys c8opts) c8acts).2 = 0
    ∧ countFailEv (runSys (initSys c8opts) c8acts).2 = 0
    ∧ (runSys (initSys c8opts) c8acts).2
        = [Event.enqueue 0 7, Event.start,
           Event.dequeue { index := 0, startTime := 0, fn := 7 },
           Event.stop, Event.endEv]
    ∧ (runSys (initSys c8opts) c8acts).1.conts = [] := by
  decide

/-! ### C5 -/

/-- C5 counterexample: `stop()` then `clear()` on a default queue, then a
single `enqueue`: on a fresh scheduler the same `enqueue` auto-starts and
emits `start` and `dequeue` (assigning sequence number 0), but on the
cleared scheduler it emits only the `enqueue` notification, because
`clear()` does not restore the auto-start flag that `stop()` disabled. -/
theorem c5_cex :
    (runSys (initSys noOpts) [Act.enqueue 7]).2
      = [Event.enqueue 0 7, Event.start,
         Event.dequeue { index := 0, startTime := 0, fn := 7 }]
    ∧ (runSys c5afterClear [Act.enqueue 7]).2 = [Event.enqueue 0 7]
    ∧ sizeQ c5afterClear.st = 0 ∧ isEmptyQ c5afterClear.st = true := by
  decide

/-- C5 (amended): `clear()` resets the pending queue, both completion
buffers, the sequence number, the completion cursor, the in-flight count and
the running state, so `size` is 0 and `isEmpty` is true afterwards; the
resulting state equals a freshly constructed instance — and hence a
subsequent `enqueue` behaves as on a fresh scheduler, sequence numbers
restarting at 0 — provided the auto-start flag currently equals its
freshly-constructed value (which `start()`/`stop()` may have changed;
`clear()` does not reset it). -/
theorem c5_clear_amended (s : QueueState) (o : QueueOptions)
    (h1 : s.interval = o.interval.getD 500)
    (h2 : s.concurrent = o.concurrent.getD 5)
    (h3 : s.startOnAdd = o.start.getD true)
    (h4 : s.guaranteeOrder = o.guaranteeOrder.getD true)
    (h5 : s.onRejection = o.onRejection.getD OnRejection.RETRY_THEN_THROW)
    (h6 : s.retryIntervals = o.retryIntervals.getD [1000, 2000, 5000, 10000, 20000, 60000])
    (h7 : s.alwaysRetry = o.alwaysRetry.getD false)
    (h8 : s.retryCondition = o.retryCondition) :
    clearPub s = mkQueue o
    ∧ (clearPub s).queue = [] ∧ (clearPub s).resolveObject = []
    ∧ (clearPub s).rejectObject = [] ∧ (clearPub s).index = 0
    ∧ (clearPub s).completed = 0 ∧ (clearPub s).runningCount = 0
    ∧ (clearPub s).isRunning = false
    ∧ sizeQ (clearPub s) = 0 ∧ isEmptyQ (clearPub s) = true := by
  refine ⟨?_, rfl, rfl, rfl, rfl, rfl, rfl, rfl, rfl, rfl⟩
  cases s
  simp_all [clearPub, mkQueue]

theorem c5_witness : clearPub c5state = mkQueue noOpts :=
  (c5_clear_amended c5state noOpts rfl rfl rfl rfl rfl rfl rfl rfl).1

/-! ### C2 -/

/-- C2 violation: a run built solely from public `enqueue` calls and
continuation wake-ups (no direct `dequeue()` call, no `clear()`) reaches a
state with in-flight count 2 under concurrency limit 1: the dequeue issued
by the pacing wake-up inside `continue` is guarded only by `started`, not by
the admission predicate. -/
theorem c2_overflow :
    (runSys (initSys c2opts) c2acts).1.st.concurrent = 1
    ∧ (runSys (initSys c2opts) c2acts).1.st.runningCount = 2
    ∧ ¬ ((runSys (initSys c2opts) c2acts).1.st.runningCount
          ≤ ((runSys (initSys c2opts) c2acts).1.st.concurrent : Int))
    ∧ Act.dequeue ∉ c2acts ∧ Act.clear ∉ c2acts := by
  decide

/-! ### C7 -/

theorem drainFuel_fields (f : Nat) (s : QueueState) :
    (drainFuel f s).1.isRunning = s.isRunning
    ∧ (drainFuel f s).1.onRejection = s.onRejection
    ∧ (drainFuel f s).1.guaranteeOrder = s.guaranteeOrder
    ∧ (drainFuel f s).1.queue = s.queue
    ∧ (drainFuel f s).1.runningCount = s.runningCount
    ∧ (drainFuel f s).1.index = s.index
    ∧ s.completed ≤ (drainFuel f s).1.completed
    ∧ ∀ ev ∈ (drainFuel f s).2, ∃ i v, ev = Event.resolve i v := by
  induction f generalizing s with
  | zero => simp [drainFuel]
  | succ f ih =>
    cases hlk : lookupA s.resolveObject s.completed with
    | some rv =>
      simp only [drainFuel, hlk]
      have h := ih { s with resolveObject := eraseA s.resolveObject s.completed,
                            completed := s.completed + 1 }
      refine ⟨h.1, h.2.1, h.2.2.1, h.2.2.2.1, h.2.2.2.2.1,
        h.2.2.2.2.2.1, le_trans (Nat.le_succ _) h.2.2.2.2.2.2.1, ?_⟩
      intro ev hmem
      simp only [List.mem_cons] at hmem
      rcases hmem with rfl | hmem
      · exact ⟨s.completed, rv.1, rfl⟩
      · exact h.2.2.2.2.2.2.2 ev hmem
    | none =>
      cases hrk : hasKey s.rejectObject s.completed with
      | true =>
        simp only [drainFuel, hlk, hrk]
        have h := ih { s with rejectObject := eraseA s.rejectObject s.completed,
                              completed := s.completed + 1 }
        exact ⟨h.1, h.2.1, h.2.2.1, h.2.2.2.1, h.2.2.2.2.1,
          h.2.2.2.2.2.1, le_trans (Nat.le_succ _) h.2.2.2.2.2.2.1,
          h.2.2.2.2.2.2.2⟩
      | false =>
        simp only [drainFuel, hlk, hrk]
        simp

theorem attemptEmit_fields (s : QueueState) (res : Nat) (info : InputInfo) :
    (attemptEmit s res info).1.isRunning = s.isRunning
    ∧ (attemptEmit s res info).1.onRejection = s.onRejection
    ∧ (attemptEmit s res info).1.guaranteeOrder = s.guaranteeOrder
    ∧ ∀ ev ∈ (attemptEmit s res info).2.1, ∃ i v, ev = Event.resolve i v := by
  by_cases hg : s.guaranteeOrder = true
  · simp only [attemptEmit, continueStep]
    rw [if_pos hg]
    have h := drainFuel_fields
      ((insertA s.resolveObject info.index (res, info)).length + s.rejectObject.length)
      { s with resolveObject := insertA s.resolveObject info.index (res, info) }
    refine ⟨h.1, h.2.1, h.2.2.1, ?_⟩
    intro ev hmem
    simp only [List.append_nil] at hmem
    exact h.2.2.2.2.2.2.2 ev hmem
  · simp only [attemptEmit, continueStep]
    rw [if_neg hg]
    refine ⟨rfl, rfl, rfl, ?_⟩
    intro ev hmem
    simp only [List.mem_cons] at hmem
    rcases hmem with rfl | hmem
    · exact ⟨info.index, res, rfl⟩
    · cases hmem

theorem fireCont_halted (s : QueueState) (c : Cont) (o : Outcome) (now : Nat)
    (hp : s.onRejection = OnRejection.THROW) (hr : s.isRunning = false) :
    (fireCont s c o now).1.isRunning = false
    ∧ (fireCont s c o now).1.onRejection = OnRejection.THROW
    ∧ ∀ i, Event.dequeue i ∉ (fireCont s c o now).2.1 := by
  cases c with
  | taskSettle info failRC =>
    cases o with
    | ok v =>
      have h := attemptEmit_fields s v info
      simp only [fireCont]
      refine ⟨h.1.trans hr, h.2.1.trans hp, ?_⟩
      intro i hmem
      obtain ⟨j, w, hev⟩ := h.2.2.2 _ hmem
      exact Event.noConfusion hev
    | err e =>
      simp only [fireCont, handleRejection, hp]
      simp [failStep, hr, hp]
  | pacing info => simp [fireCont, hr, hp]
  | retrySleep a rc e2 info => simp [fireCont, hr, hp]

theorem runSys_halted_fires (σ : Sys) (acts : List Act)
    (hp : σ.st.onRejection = OnRejection.THROW) (hr : σ.st.isRunning = false)
    (hf : ∀ a ∈ acts, isFireAct a = true) :
    (runSys σ acts).1.st.isRunning = false
    ∧ ∀ i, Event.dequeue i ∉ (runSys σ acts).2 := by
  induction acts generalizing σ with
  | nil => exact ⟨hr, by simp [runSys]⟩
  | cons a as ih =>
    have ha := hf a (List.mem_cons_self a as)
    have hftail : ∀ b ∈ as, isFireAct b = true :=
      fun b hb => hf b (List.mem_cons_of_mem a hb)
    cases a with
    | enqueue fn => simp [isFireAct] at ha
    | start => simp [isFireAct] at ha
    | stop => simp [isFireAct] at ha
    | clear => simp [isFireAct] at ha
    | dequeue => simp [isFireAct] at ha
    | fire k o =>
      simp only [runSys, stepSys]
      cases hk : σ.conts.get? k with
      | none =>
        simp only [hk]
        have h2 := ih { st := σ.st, conts := σ.conts, now := σ.now + 1 } hp hr hftail
        exact ⟨h2.1, by simpa using h2.2⟩
      | some c =>
        simp only [hk]
        have hfc := fireCont_halted σ.st c o σ.now hp hr
        have h2 := ih
          { st := (fireCont σ.st c o σ.now).1,
            conts := σ.conts.eraseIdx k ++ (fireCont σ.st c o σ.now).2.2,
            now := σ.now + 1 } hfc.2.1 hfc.1 hftail
        refine ⟨h2.1, ?_⟩
        intro i hmem
        simp only [List.mem_append] at hmem
        rcases hmem with hmem | hmem
        · exact hfc.2.2 i hmem
        · exact h2.2 i hmem

/-- C7: under fail-fast (`THROW`), a failure with the scheduler running emits
the fatal `fail` notification (followed by `end`) and clears the running
state; and from any halted fail-fast state, any sequence of continuation
wake-ups (in-flight settlements, pacing or backoff timers — i.e. the rest of
that run, with no new public calls) emits no `dequeue` notification and never
restarts the scheduler. -/
theorem c7_failfast (s : QueueState) (e : Nat) (info : InputInfo) (rc now : Nat)
    (hp : s.onRejection = OnRejection.THROW) (hr : s.isRunning = true) :
    ((handleRejection s e info rc now).2.1 = [Event.fail e, Event.endEv]
     ∧ (handleRejection s e info rc now).1.isRunning = false
     ∧ (handleRejection s e info rc now).1.onRejection = OnRejection.THROW)
    ∧ ∀ (σ : Sys) (acts : List Act),
        σ.st.onRejection = OnRejection.THROW → σ.st.isRunning = false →
        (∀ a ∈ acts, isFireAct a = true) →
        (runSys σ acts).1.st.isRunning = false
        ∧ ∀ i, Event.dequeue i ∉ (runSys σ acts).2 := by
  constructor
  · simp [handleRejection, hp, failStep, endStep, hr]
  · exact fun σ acts h1 h2 h3 => runSys_halted_fires σ acts h1 h2 h3

theorem c7_witness :
    c7state.onRejection = OnRejection.THROW ∧ c7state.isRunning = true
    ∧ (handleRejection c7state 5 infoW 0 0).2.1 = [Event.fail 5, Event.endEv]
    ∧ (handleRejection c7state 5 infoW 0 0).1.isRunning = false := by
  have h := c7_failfast c7state 5 infoW 0 0 (by decide) (by decide)
  exact ⟨by decide, by decide, h.1.1, h.1.2.1⟩

/-! ### C1 -/

theorem drainBound_nil (c c' : Nat) (h : c ≤ c') : drainBound c c' [] :=
  ⟨h, List.Pairwise.nil, by simp⟩

theorem drainBound_append (c c' c'' : Nat) (l1 l2 : List Nat)
    (h1 : drainBound c c' l1) (h2 : drainBound c' c'' l2) :
    drainBound c c'' (l1 ++ l2) := by
  obtain ⟨hle1, hp1, hb1⟩ := h1
  obtain ⟨hle2, hp2, hb2⟩ := h2
  refine ⟨le_trans hle1 hle2, ?_, ?_⟩
  · rw [List.pairwise_append]
    exact ⟨hp1, hp2, fun x hx y hy =>
      lt_of_lt_of_le (hb1 x hx).2 (hb2 y hy).1⟩
  · intro x hx
    rcases List.mem_append.mp hx with hx | hx
    · exact ⟨(hb1 x hx).1, lt_of_lt_of_le (hb1 x hx).2 hle2⟩
    · exact ⟨le_trans hle1 (hb2 x hx).1, (hb2 x hx).2⟩

theorem drainFuel_bound (f : Nat) (s : QueueState) :
    drainBound s.completed (drainFuel f s).1.completed
      (resolveIdxs (drainFuel f s).2) := by
  induction f generalizing s with
  | zero => exact drainBound_nil _ _ (by simp [drainFuel])
  | succ f ih =>
    cases hlk : lookupA s.resolveObject s.completed with
    | some rv =>
      simp only [drainFuel, hlk, resolveIdxs, List.filterMap_cons]
      have h := ih { s with resolveObject := eraseA s.resolveObject s.completed,
                            completed := s.completed + 1 }
      obtain ⟨hle, hp, hb⟩ := h
      refine ⟨le_trans (Nat.le_succ _) hle, ?_, ?_⟩
      · exact List.Pairwise.cons
          (fun y hy => lt_of_lt_of_le (Nat.lt_succ_self _) (hb y hy).1) hp
      · intro x hx
        rcases List.mem_cons.mp hx with rfl | hx
        · exact ⟨le_refl _, lt_of_lt_of_le (Nat.lt_succ_self _) hle⟩
        · exact ⟨le_trans (Nat.le_succ _) (hb x hx).1, (hb x hx).2⟩
    | none =>
      cases hrk : hasKey s.rejectObject s.completed with
      | true =>
        simp only [drainFuel, hlk, hrk]
        have h := ih { s with rejectObject := eraseA s.rejectObject s.completed,
                              completed := s.completed + 1 }
        exact ⟨le_trans (Nat.le_succ _) h.1, h.2.1, fun x hx =>
          ⟨le_trans (Nat.le_succ _) (h.2.2 x hx).1, (h.2.2 x hx).2⟩⟩
      | false =>
        simp only [drainFuel, hlk, hrk]
        exact drainBound_nil _ _ (le_refl _)

theorem endStep_nores (s : QueueState) :
    (endStep s).1.completed = s.completed
    ∧ (endStep s).1.guaranteeOrder = s.guaranteeOrder
    ∧ resolveIdxs (endStep s).2 = [] := by
  by_cases hi : s.isRunning = true <;> simp [endStep, hi, resolveIdxs]

theorem failStep_nores (s : QueueState) (e : Nat) :
    (failStep s e).1.completed = s.completed
    ∧ (failStep s e).1.guaranteeOrder = s.guaranteeOrder
    ∧ resolveIdxs (failStep s e).2 = [] := by
  by_cases hi : s.isRunning = true <;> simp [failStep, endStep, hi, resolveIdxs]

theorem dequeueStep_nores (s : QueueState) (now : Nat) :
    (dequeueStep s now).1.completed = s.completed
    ∧ (dequeueStep s now).1.guaranteeOrder = s.guaranteeOrder
    ∧ resolveIdxs (dequeueStep s now).2.1 = [] := by
  cases hq : s.queue with
  | nil =>
    have h := endStep_nores s
    simp only [dequeueStep, hq, resolveIdxs, List.filterMap_append]
    simp only [resolveIdxs] at h
    exact ⟨h.1, h.2.1, by rw [h.2.2]; simp⟩
  | cons fn rest => simp [dequeueStep, hq, resolveIdxs]

theorem rejectAndContinue_nores (s : QueueState) (e : Nat) (info : InputInfo)
    (now : Nat) :
    (rejectAndContinue s e info now).1.completed = s.completed
    ∧ (rejectAndContinue s e info now).1.guaranteeOrder = s.guaranteeOrder
    ∧ resolveIdxs (rejectAndContinue s e info now).2.1 = [] := by
  have h := dequeueStep_nores
    { s with rejectObject := insertA s.rejectObject info.index e,
             runningCount := s.runningCount - 1 } now
  simp only [rejectAndContinue, resolveIdxs, List.filterMap_cons] at h ⊢
  exact ⟨h.1, h.2.1, h.2.2⟩

theorem attemptRetry_nores (s : QueueState) (iv : Option Nat) (rc e : Nat)
    (info : InputInfo) (now : Nat) :
    (attemptRetry s iv rc e info now).1.completed = s.completed
    ∧ (attemptRetry s iv rc e info now).1.guaranteeOrder = s.guaranteeOrder
    ∧ resolveIdxs (attemptRetry s iv rc e info now).2.1 = [] := by
  by_cases hg : s.alwaysRetry = true ∨ rc < s.retryIntervals.length
  · rw [attemptRetry, if_pos hg]
    simp [resolveIdxs]
  · rw [attemptRetry, if_neg hg]
    by_cases hp : s.onRejection = OnRejection.RETRY_THEN_THROW
    · rw [if_pos hp]
      exact failStep_nores s e
    · rw [if_neg hp]
      exact rejectAndContinue_nores s e info now

theorem handleRejection_nores (s : QueueState) (e : Nat) (info : InputInfo)
    (rc now : Nat) :
    (handleRejection s e info rc now).1.completed = s.completed
    ∧ (handleRejection s e info rc now).1.guaranteeOrder = s.guaranteeOrder
    ∧ resolveIdxs (handleRejection s e info rc now).2.1 = [] := by
  cases hp : s.onRejection with
  | THROW =>
    simp only [handleRejection, hp]
    exact failStep_nores s e
  | RETRY_THEN_THROW =>
    simp only [handleRejection, hp]
    by_cases hcnd : ((condEval s e).map RetryDecision.retry).getD true = true
    · rw [if_pos hcnd]
      exact attemptRetry_nores s _ rc e info now
    · rw [if_neg hcnd]
      exact failStep_nores s e
  | IGNORE =>
    simp only [handleRejection, hp]
    exact rejectAndContinue_nores s e info now
  | RETRY_THEN_IGNORE =>
    simp only [handleRejection, hp]
    by_cases hcnd : ((condEval s e).map RetryDecision.retry).getD true = true
    · rw [if_pos hcnd]
      exact attemptRetry_nores s _ rc e info now
    · rw [if_neg hcnd]
      exact rejectAndContinue_nores s e info now

theorem startLoopAux_nores (f : Nat) (s : QueueState) (now : Nat) :
    (startLoopAux f s now).1.completed = s.completed
    ∧ (startLoopAux f s now).1.guaranteeOrder = s.guaranteeOrder
    ∧ resolveIdxs (startLoopAux f s now).2.1 = [] := by
  induction f generalizing s with
  | zero => simp [startLoopAux, resolveIdxs]
  | succ f ih =>
    by_cases hsr : shouldRunQ s = true
    · simp only [startLoopAux, hsr, if_true]
      have h1 := dequeueStep_nores s now
      have h2 := ih (dequeueStep s now).1
      simp only [resolveIdxs, List.filterMap_append] at h1 h2 ⊢
      exact ⟨h2.1.trans h1.1, h2.2.1.trans h1.2.1, by rw [h1.2.2, h2.2.2]; simp⟩
    · simp only [startLoopAux, hsr, if_false]
      simp [resolveIdxs]

theorem startPub_nores (s : QueueState) (now : Nat) :
    (startPub s now).1.completed = s.completed
    ∧ (startPub s now).1.guaranteeOrder = s.guaranteeOrder
    ∧ resolveIdxs (startPub s now).2.1 = [] := by
  have h := startLoopAux_nores
    ({ s with isRunning := true, startOnAdd := true } : QueueState).queue.length
    { s with isRunning := true, startOnAdd := true } now
  simp only [startPub, resolveIdxs, List.filterMap_cons] at h ⊢
  exact ⟨h.1, h.2.1, h.2.2⟩

theorem stopPub_nores (s : QueueState) :
    (stopPub s).1.completed = s.completed
    ∧ (stopPub s).1.guaranteeOrder = s.guaranteeOrder
    ∧ resolveIdxs (stopPub s).2.1 = [] := by
  have h := endStep_nores ({ s with startOnAdd := false } : QueueState)
  simp only [stopPub, resolveIdxs, List.filterMap_cons] at h ⊢
  exact ⟨h.1, h.2.1, h.2.2⟩

theorem enqueuePub_nores (s : QueueState) (fn : Nat) (now : Nat) :
    (enqueuePub s fn now).1.completed = s.completed
    ∧ (enqueuePub s fn now).1.guaranteeOrder = s.guaranteeOrder
    ∧ resolveIdxs (enqueuePub s fn now).2.1 = [] := by
  by_cases hsr : (shouldRunQ { s with queue := s.queue ++ [fn] }
      && ({ s with queue := s.queue ++ [fn] } : QueueState).startOnAdd) = true
  · simp only [enqueuePub, hsr, if_true]
    have h := startPub_nores { s with queue := s.queue ++ [fn] } now
    simp only [resolveIdxs, List.filterMap_cons] at h ⊢
    exact ⟨h.1, h.2.1, h.2.2⟩
  · simp only [enqueuePub, hsr, if_false]
    simp [resolveIdxs]

theorem attemptEmit_drainBound (s : QueueState) (res : Nat) (info : InputInfo)
    (hg : s.guaranteeOrder = true) :
    drainBound s.completed (attemptEmit s res info).1.completed
      (resolveIdxs (attemptEmit s res info).2.1)
    ∧ (attemptEmit s res info).1.guaranteeOrder = true := by
  simp only [attemptEmit, continueStep]
  rw [if_pos hg]
  have hb := drainFuel_bound
    ((insertA s.resolveObject info.index (res, info)).length + s.rejectObject.length)
    { s with resolveObject := insertA s.resolveObject info.index (res, info) }
  have hf := drainFuel_fields
    ((insertA s.resolveObject info.index (res, info)).length + s.rejectObject.length)
    { s with resolveObject := insertA s.resolveObject info.index (res, info) }
  constructor
  · simpa using hb
  · exact hf.2.2.1.trans hg

theorem fireCont_drainBound (s : QueueState) (c : Cont) (o : Outcome) (now : Nat)
    (hg : s.guaranteeOrder = true) :
    drainBound s.completed (fireCont s c o now).1.completed
      (resolveIdxs (fireCont s c o now).2.1)
    ∧ (fireCont s c o now).1.guaranteeOrder = true := by
  cases c with
  | taskSettle info failRC =>
    cases o with
    | ok v => exact attemptEmit_drainBound s v info hg
    | err e =>
      have h := handleRejection_nores s e info failRC now
      simp only [fireCont]
      rw [h.2.2]
      exact ⟨drainBound_nil _ _ (le_of_eq h.1.symm), h.2.1.trans hg⟩
  | pacing info =>
    by_cases hi : s.isRunning = true
    · simp only [fireCont, hi, if_true]
      have h := dequeueStep_nores s now
      rw [h.2.2]
      exact ⟨drainBound_nil _ _ (le_of_eq h.1.symm), h.2.1.trans hg⟩
    · simp only [fireCont, hi, if_false]
      exact ⟨drainBound_nil _ _ (le_refl _), hg⟩
  | retrySleep a rc e info =>
    simp only [fireCont]
    exact ⟨⟨le_refl _, by simp [resolveIdxs], by simp [resolveIdxs]⟩, hg⟩

theorem stepSys_drainBound (σ : Sys) (a : Act)
    (hg : σ.st.guaranteeOrder = true) (hnc : a ≠ Act.clear) :
    drainBound σ.st.completed (stepSys σ a).1.st.completed
      (resolveIdxs (stepSys σ a).2)
    ∧ (stepSys σ a).1.st.guaranteeOrder = true := by
  cases a with
  | enqueue fn =>
    have h := enqueuePub_nores σ.st fn σ.now
    simp only [stepSys]
    rw [h.2.2]
    exact ⟨drainBound_nil _ _ (le_of_eq h.1.symm), h.2.1.trans hg⟩
  | start =>
    have h := startPub_nores σ.st σ.now
    simp only [stepSys]
    rw [h.2.2]
    exact ⟨drainBound_nil _ _ (le_of_eq h.1.symm), h.2.1.trans hg⟩
  | stop =>
    have h := stopPub_nores σ.st
    simp only [stepSys]
    rw [h.2.2]
    exact ⟨drainBound_nil _ _ (le_of_eq h.1.symm), h.2.1.trans hg⟩
  | clear => exact absurd rfl hnc
  | dequeue =>
    have h := dequeueStep_nores σ.st σ.now
    simp only [stepSys]
    rw [h.2.2]
    exact ⟨drainBound_nil _ _ (le_of_eq h.1.symm), h.2.1.trans hg⟩
  | fire k o =>
    simp only [stepSys]
    cases hk : σ.conts.get? k with
    | none =>
      simp only [hk]
      exact ⟨⟨le_refl _, by simp [resolveIdxs], by simp [resolveIdxs]⟩, hg⟩
    | some c =>
      simp only [hk]
      exact fireCont_drainBound σ.st c o σ.now hg

theorem runSys_drainBound (σ : Sys) (acts : List Act)
    (hg : σ.st.guaranteeOrder = true) (hc : Act.clear ∉ acts) :
    drainBound σ.st.completed (runSys σ acts).1.st.completed
      (resolveIdxs (runSys σ acts).2)
    ∧ (runSys σ acts).1.st.guaranteeOrder = true := by
  induction acts generalizing σ with
  | nil =>
    simp only [runSys]
    exact ⟨⟨le_refl _, by simp [resolveIdxs], by simp [resolveIdxs]⟩, hg⟩
  | cons a as ih =>
    have hnc : a ≠ Act.clear := fun h => hc (h ▸ List.mem_cons_self a as)
    have hctail : Act.clear ∉ as := fun h => hc (List.mem_cons_of_mem a h)
    have h1 := stepSys_drainBound σ a hg hnc
    have h2 := ih (stepSys σ a).1 h1.2 hctail
    simp only [runSys, resolveIdxs, List.filterMap_append] at h2 ⊢
    refine ⟨?_, h2.2⟩
    exact drainBound_append _ _ _ _ _ h1.1 h2.1

theorem hasKey_of_lookupA {α : Type} (m : List (Nat × α)) (k : Nat) (v : α)
    (h : lookupA m k = some v) : hasKey m k = true := by
  unfold lookupA at h
  unfold hasKey
  cases hf : m.find? fun p => p.1 == k with
  | none => rw [hf] at h; exact Option.noConfusion h
  | some p => simp

theorem hasKey_insertA_of {α : Type} (m : List (Nat × α)) (k i : Nat) (v : α)
    (hik : i ≠ k) (h : hasKey (insertA m k v) i = true) : hasKey m i = true := by
  rw [hasKey_iff] at h ⊢
  obtain ⟨p, hp, he⟩ := h
  rcases List.mem_cons.mp hp with rfl | hp
  · exact absurd he.symm hik
  · exact ⟨p, List.mem_of_mem_filter hp, he⟩

theorem hasKey_length {α : Type} (m : List (Nat × α)) (k : Nat)
    (h : hasKey m k = true) : 1 ≤ m.length := by
  rw [hasKey_iff] at h
  obtain ⟨p, hp, _⟩ := h
  cases m with
  | nil => cases hp
  | cons q qs => simp

theorem drainFuel_resolve_hasKey (f : Nat) (s : QueueState) :
    ∀ x ∈ resolveIdxs (drainFuel f s).2, hasKey s.resolveObject x = true := by
  induction f generalizing s with
  | zero => simp [drainFuel, resolveIdxs]
  | succ f ih =>
    cases hlk : lookupA s.resolveObject s.completed with
    | some rv =>
      simp only [drainFuel, hlk, resolveIdxs, List.filterMap_cons]
      intro x hx
      rcases List.mem_cons.mp hx with rfl | hx
      · exact hasKey_of_lookupA s.resolveObject s.completed rv hlk
      · have h := ih { s with resolveObject := eraseA s.resolveObject s.completed,
                              completed := s.completed + 1 } x hx
        exact hasKey_eraseA s.resolveObject s.completed x h
    | none =>
      cases hrk : hasKey s.rejectObject s.completed with
      | true =>
        simp only [drainFuel, hlk, hrk]
        intro x hx
        exact ih { s with rejectObject := eraseA s.rejectObject s.completed,
                          completed := s.completed + 1 } x hx
      | false =>
        simp only [drainFuel, hlk, hrk]
        simp [resolveIdxs]

theorem drainFuel_advance (f : Nat) (s : QueueState) (hf : 1 ≤ f)
    (hres : hasKey s.resolveObject s.completed = false)
    (hrej : hasKey s.rejectObject s.completed = true) :
    s.completed < (drainFuel f s).1.completed := by
  cases f with
  | zero => omega
  | succ f =>
    have hlk := lookupA_none_of_not_hasKey s.resolveObject s.completed hres
    simp only [drainFuel, hlk, hrej]
    have h := (drainFuel_fields f
      { s with rejectObject := eraseA s.rejectObject s.completed,
               completed := s.completed + 1 }).2.2.2.2.2.2.1
    exact lt_of_lt_of_le (Nat.lt_succ_self _) h

theorem attemptEmit_reject_skip (s : QueueState) (res : Nat) (info : InputInfo)
    (i : Nat) (hg : s.guaranteeOrder = true)
    (hrej : hasKey s.rejectObject i = true)
    (hres : hasKey s.resolveObject i = false) (hi : i ≠ info.index) :
    i ∉ resolveIdxs (attemptEmit s res info).2.1
    ∧ (i = s.completed → s.completed < (attemptEmit s res info).1.completed) := by
  have hresins : hasKey (insertA s.resolveObject info.index (res, info)) i = false := by
    cases hki : hasKey (insertA s.resolveObject info.index (res, info)) i with
    | false => rfl
    | true =>
      have hk := hasKey_insertA_of s.resolveObject info.index i (res, info) hi hki
      rw [hres] at hk
      exact Bool.noConfusion hk
  simp only [attemptEmit, continueStep]
  rw [if_pos hg]
  constructor
  · intro hmem
    simp only [List.append_nil] at hmem
    have hk := drainFuel_resolve_hasKey _ _ i hmem
    rw [hresins] at hk
    exact Bool.noConfusion hk
  · intro hic
    subst hic
    exact drainFuel_advance
      ((insertA s.resolveObject info.index (res, info)).length + s.rejectObject.length)
      { s with resolveObject := insertA s.resolveObject info.index (res, info) }
      (by have := hasKey_length s.rejectObject s.completed hrej; omega)
      hresins hrej

/-- C1: with the order guarantee enabled, over any run built from public
calls and settlement wake-ups that contains no `clear()`, the sequence
numbers of the emitted `resolve` notifications are strictly increasing —
tasks may settle in any order.  Moreover a non-fatally rejected sequence
number never yields a `resolve` during buffer draining, but when it sits at
the completion cursor the drain advances the cursor past it. -/
theorem c1_ordered_resolves (o : QueueOptions) (acts : List Act)
    (hg : (mkQueue o).guaranteeOrder = true) (hc : Act.clear ∉ acts) :
    List.Pairwise (· < ·) (resolveIdxs (runSys (initSys o) acts).2)
    ∧ ∀ (s : QueueState) (res : Nat) (info : InputInfo) (i : Nat),
        s.guaranteeOrder = true → hasKey s.rejectObject i = true →
        hasKey s.resolveObject i = false → i ≠ info.index →
        i ∉ resolveIdxs (attemptEmit s res info).2.1
        ∧ (i = s.completed → s.completed < (attemptEmit s res info).1.completed) :=
  ⟨((runSys_drainBound (initSys o) acts hg hc).1).2.1,
   fun s res info i h1 h2 h3 h4 => attemptEmit_reject_skip s res info i h1 h2 h3 h4⟩

theorem c1_witness :
    (mkQueue c1opts).guaranteeOrder = true ∧ Act.clear ∉ c1acts
    ∧ List.Pairwise (· < ·) (resolveIdxs (runSys (initSys c1opts) c1acts).2)
    ∧ resolveIdxs (runSys (initSys c1opts) c1acts).2 = [0, 1] :=
  ⟨by decide, by decide,
   (c1_ordered_resolves c1opts c1acts (by decide) (by decide)).1, by decide⟩

end PromiseQueue
